import Mathlib

/-!
Shallow embedding of the IntelliNote answer-generation core:
the retry-wrapped LLM transport (`callApiWithRetry`), the per-question
three-stage protocol (`processSingleQuestion`), the bounded-concurrency
scheduler of `generateAnswers` (modelled as a small-step relation so that
any worker interleaving is covered), and the PDF normalisation layer
(`parsePdf` with its scan fallback and image de-duplication).

External LLM and browser effects (model responses, canvas encodes, page
renders) are passed in as explicit oracle data; everything else follows
the TypeScript source.
-/

namespace IntelliNote

/-! ## Basic string helpers (JS `String.prototype.includes` analogue) -/

/-- `charsStartWith hay pat` is true when `pat` is a leading run of `hay`. -/
def charsStartWith : List Char → List Char → Bool
  | _, [] => true
  | [], _ :: _ => false
  | c :: cs, d :: ds => c == d && charsStartWith cs ds

/-- `charsHaveSub hay pat`: `pat` occurs contiguously somewhere in `hay`. -/
def charsHaveSub : List Char → List Char → Bool
  | [], pat => charsStartWith [] pat
  | c :: cs, pat => charsStartWith (c :: cs) pat || charsHaveSub cs pat

/-- JS `hay.includes(pat)`. -/
def strContains (hay pat : String) : Bool :=
  charsHaveSub hay.toList pat.toList

/-- JS `s.startsWith(pre)`. -/
def jsStartsWith (s pre : String) : Bool :=
  charsStartWith s.toList pre.toList

/-- JS `s.trim()` (over the ASCII whitespace the inputs use). -/
def jsTrim (s : String) : String :=
  ⟨((s.toList.dropWhile Char.isWhitespace).reverse.dropWhile Char.isWhitespace).reverse⟩

/-- ASCII upper-casing of one character, as JS `toUpperCase` does on ASCII. -/
def upChar (c : Char) : Char :=
  if 'a' ≤ c ∧ c ≤ 'z' then Char.ofNat (c.toNat - 32) else c

/-- JS `s.toUpperCase()` (ASCII range). -/
def jsToUpper (s : String) : String := ⟨s.toList.map upChar⟩

/-- JS `s.substring(0, n)` / the `take` used by the de-dup key. -/
def jsTake (s : String) (n : Nat) : String := ⟨s.toList.take n⟩

/-- JS `s.substring(n)` / drop of a leading prefix of known length. -/
def jsDrop (s : String) (n : Nat) : String := ⟨s.toList.drop n⟩

/-- JS `s.split('\n')` on character lists: every separator splits, empty
segments kept. -/
def splitNlChars : List Char → List Char → List (List Char)
  | [], acc => [acc.reverse]
  | c :: cs, acc =>
    if c == '\n' then acc.reverse :: splitNlChars cs []
    else splitNlChars cs (c :: acc)

/-- JS `s.split('\n')`. -/
def jsSplitNl (s : String) : List String :=
  (splitNlChars s.toList []).map (fun cs => (⟨cs⟩ : String))

/-- JS `lines.join('\n')`. -/
def jsJoinNl : List String → String
  | [] => ""
  | [s] => s
  | s :: t :: rest => s ++ "\n" ++ jsJoinNl (t :: rest)

/-! ## Data model (`types.ts`) -/

structure Source where
  uri : String
  title : String
deriving DecidableEq, Repr

structure Question where
  text : String
  marks : Option String
deriving DecidableEq, Repr

structure Result where
  question : String
  marks : Option String
  answer : String
  imageUrl : Option String
  sources : List Source
deriving DecidableEq, Repr

structure ImagePart where
  data : String
  mimeType : String
deriving DecidableEq, Repr

structure ParsedNotes where
  text : String
  images : List ImagePart
deriving DecidableEq, Repr

/-! ## `parseAiResponse` -/

/-- A line that carries an image directive (exact prefix match, as in the
source: `line.startsWith("USE_IMAGE:") || line.startsWith("GENERATE_IMAGE_PROMPT:")`). -/
def isDirectiveLine (l : String) : Bool :=
  jsStartsWith l "USE_IMAGE:" || jsStartsWith l "GENERATE_IMAGE_PROMPT:"

structure ParsedAi where
  answer : String
  imageDirective : Option String
deriving DecidableEq, Repr

/-- `parseAiResponse` from the source: split on newlines, find the first
directive line, drop every directive line from the answer body, trim. -/
def parseAiResponse (text : String) : ParsedAi :=
  let lines := jsSplitNl text
  let directiveLine := lines.find? (fun l => isDirectiveLine l)
  let answerLines := lines.filter (fun l => !(isDirectiveLine l))
  { answer := jsTrim (jsJoinNl answerLines)
  , imageDirective := directiveLine.map (fun l => jsTrim l) }

/-! ## The `/\[Image (\d+)\]/` regex match -/

/-- Decimal value of a digit run. -/
def digitsVal (ds : List Char) : Nat :=
  ds.foldl (fun a c => a * 10 + (c.toNat - 48)) 0

/-- Try to match `[Image <digits>]` at the head of `l` and return the number. -/
def tagAt (l : List Char) : Option Nat :=
  if charsStartWith l ("[Image ".toList) then
    let rest := l.drop 7
    let ds := rest.takeWhile Char.isDigit
    if ds.isEmpty then none
    else
      match rest.drop ds.length with
      | ']' :: _ => some (digitsVal ds)
      | _ => none
  else none

/-- Scan positions left to right, as the regex engine does. -/
def findImageTag : List Char → Option Nat
  | [] => none
  | c :: cs =>
    match tagAt (c :: cs) with
    | some n => some n
    | none => findImageTag cs

/-- First match of `/\[Image (\d+)\]/` in `s`, as a number. -/
def matchImageTag (s : String) : Option Nat :=
  findImageTag s.toList

/-! ## Image resolution (stage 3 of `processSingleQuestion`) -/

/-- The `USE_IMAGE:` branch: 1-based index into the notes' images, resolved
with no network call; out-of-range or unparsable tags yield no image. -/
def resolveUse (d : String) (images : List ImagePart) : Option String :=
  match matchImageTag d with
  | some n =>
    if 1 ≤ n ∧ n ≤ images.length then
      match images.get? (n - 1) with
      | some img => some ("data:" ++ img.mimeType ++ ";base64," ++ img.data)
      | none => none
    else none
  | none => none

/-- The `GENERATE_IMAGE_PROMPT:` branch. `gen` is the image-generation
backend (post-retry outcome); the second component records the prompts of
the generation calls actually issued. Generation failure is caught and
degrades to no image. -/
def resolveGen (d : String) (gen : String → Except String (Option String)) :
    Option String × List String :=
  let imagePrompt := jsTrim (jsDrop d "GENERATE_IMAGE_PROMPT:".length)
  if imagePrompt = "" then (none, [])
  else
    match gen imagePrompt with
    | .ok (some bytes) => (some ("data:image/jpeg;base64," ++ bytes), [imagePrompt])
    | .ok none => (none, [imagePrompt])
    | .error _ => (none, [imagePrompt])

/-- Stage 3: dispatch on the directive, mirroring the source's
`if (imageDirective?.startsWith(...)) ... else if (...)` chain. -/
def resolveImage (directive : Option String) (images : List ImagePart)
    (gen : String → Except String (Option String)) : Option String × List String :=
  match directive with
  | none => (none, [])
  | some d =>
    if jsStartsWith d "USE_IMAGE:" then (resolveUse d images, [])
    else if jsStartsWith d "GENERATE_IMAGE_PROMPT:" then resolveGen d gen
    else (none, [])

/-! ## Citation mapping -/

structure ChunkWeb where
  uri : Option String
  title : Option String
deriving DecidableEq, Repr

structure GroundingChunk where
  web : Option ChunkWeb
deriving DecidableEq, Repr

/-- `chunk.web?.uri || ''` and friends, then drop sources with empty uri
(JS truthiness of the string). -/
def mkSources (chunks : List GroundingChunk) : List Source :=
  (chunks.map (fun c =>
      { uri := ((c.web.bind ChunkWeb.uri).getD "")
      , title := ((c.web.bind ChunkWeb.title).getD "") })).filter
    (fun s => !(s.uri == ""))

/-! ## `processSingleQuestion` -/

/-- Post-retry outcomes of the three per-question LLM interactions.
`synthesis` takes the `needsWebSearch` flag since the real call's tool
configuration depends on it. -/
structure QuestionOracle where
  probe : Except String String
  synthesis : Bool → Except String (String × List GroundingChunk)
  imageGen : String → Except String (Option String)

/-- Fallback messages of the per-question catch block. -/
def rateLimitFallback : String :=
  "Could not generate an answer due to API rate limits. Please try again later or process fewer questions at once."

def genericFallback : String :=
  "Sorry, an error occurred while generating the answer for this question. Please try again."

/-- Which fallback text the catch block picks for error `e`. -/
def fallbackAnswer (e : String) : String :=
  if strContains e "RESOURCE_EXHAUSTED" || strContains e "rate limit" then rateLimitFallback
  else genericFallback

/-- The uncaught part of the per-question protocol: relevance probe, then
synthesis, then parsing, citation mapping and image resolution. An error
escaping here is the one the question-boundary catch sees. Also returns
the image-generation prompts issued. -/
def processCore (notes : ParsedNotes) (q : Question) (o : QuestionOracle) :
    Except String (Result × List String) :=
  match o.probe with
  | .error e => .error e
  | .ok probeText =>
    let needsWeb := strContains (jsToUpper (jsTrim probeText)) "NO"
    match o.synthesis needsWeb with
    | .error e => .error e
    | .ok (fullText, chunks) =>
      let parsed := parseAiResponse fullText
      let resolved := resolveImage parsed.imageDirective notes.images o.imageGen
      .ok ({ question := q.text, marks := q.marks, answer := parsed.answer
           , imageUrl := resolved.1, sources := mkSources chunks }, resolved.2)

/-- `processSingleQuestion` with its gen-call log: the catch block converts
any escaping error into the fallback `Result`. -/
def processQuestionFull (notes : ParsedNotes) (q : Question) (o : QuestionOracle) :
    Result × List String :=
  match processCore notes q o with
  | .ok rg => rg
  | .error e =>
    ({ question := q.text, marks := q.marks, answer := fallbackAnswer e
     , imageUrl := none, sources := [] }, [])

def processSingleQuestion (notes : ParsedNotes) (q : Question) (o : QuestionOracle) : Result :=
  (processQuestionFull notes q o).1

/-! ## `callApiWithRetry` -/

/-- Message of the error thrown when the retry budget is exhausted. -/
def rateLimitMsg : String := "API rate limit exceeded after multiple retries."

/-- Rate-limit detection of the source:
`error.message.includes('"status":"RESOURCE_EXHAUSTED"') || error.message.includes('429')`. -/
def isRateLimitErr (e : String) : Bool :=
  strContains e "\"status\":\"RESOURCE_EXHAUSTED\"" || strContains e "429"

/-- The retry loop. `call n` is the outcome of the `n`-th underlying
attempt (0-based); `fuel` is the number of retries still allowed. Returns
the final outcome together with the total number of attempts made.
Backoff delays are time-only and not modelled. -/
def retryLoop (call : Nat → Except String String) : Nat → Nat → Except String String × Nat
  | attempt, 0 =>
    match call attempt with
    | .ok v => (.ok v, attempt + 1)
    | .error e =>
      if isRateLimitErr e then (.error rateLimitMsg, attempt + 1)
      else (.error e, attempt + 1)
  | attempt, fuel + 1 =>
    match call attempt with
    | .ok v => (.ok v, attempt + 1)
    | .error e =>
      if isRateLimitErr e then retryLoop call (attempt + 1) fuel
      else (.error e, attempt + 1)

/-- `callApiWithRetry` (the source's default `maxRetries` is 3). -/
def callApiWithRetry (call : Nat → Except String String) (maxRetries : Nat) :
    Except String String × Nat :=
  retryLoop call 0 maxRetries

/-! ## The `generateAnswers` scheduler

`generateAnswers` runs `CONCURRENCY_LIMIT` workers over a shared FIFO
queue; queue pops, map writes, the completion counter bump and the
progress callback are synchronous (atomic on the JS event loop), while the
per-question processing in between is a suspension point. We model one
run as a small-step relation: `start` atomically pops the queue head for
a free worker, `finish` atomically records a completed question's result,
bumps the counter and emits the progress event. Any interleaving of
worker completions is a path of this relation. -/

def CONCURRENCY_LIMIT : Nat := 2

/-- `resultsMap.set(key, value)` with JS `Map` semantics: an existing key
keeps its position and gets the new value, a new key is appended. -/
def mapSet (m : List (String × Result)) (k : String) (v : Result) :
    List (String × Result) :=
  if m.any (fun p => p.1 == k) then m.map (fun p => if p.1 == k then (k, v) else p)
  else m ++ [(k, v)]

structure PipeState where
  queue : List Question
  inFlight : List Question
  resMap : List (String × Result)
  completed : Nat
  events : List (Nat × Nat)
deriving DecidableEq, Repr

/-- One atomic scheduler event. `proc q` is the (deterministic, oracle-fed)
result of `processSingleQuestion` for `q`; `total` is the caller's
question count, `limit` the worker-pool size. -/
inductive GenStep (proc : Question → Result) (total limit : Nat) :
    PipeState → PipeState → Prop
  | start (q : Question) (rest inF : List Question) (m : List (String × Result))
      (c : Nat) (ev : List (Nat × Nat)) :
      inF.length < limit →
      GenStep proc total limit ⟨q :: rest, inF, m, c, ev⟩ ⟨rest, inF ++ [q], m, c, ev⟩
  | finish (q : Question) (qu pre post : List Question) (m : List (String × Result))
      (c : Nat) (ev : List (Nat × Nat)) :
      GenStep proc total limit ⟨qu, pre ++ q :: post, m, c, ev⟩
        ⟨qu, pre ++ post, mapSet m q.text (proc q), c + 1, ev ++ [(c + 1, total)]⟩

/-- Finitely many scheduler events. -/
inductive GenRun (proc : Question → Result) (total limit : Nat) :
    PipeState → PipeState → Prop
  | refl (s : PipeState) : GenRun proc total limit s s
  | tail {s t u : PipeState} : GenRun proc total limit s t →
      GenStep proc total limit t u → GenRun proc total limit s u

def initState (qs : List Question) : PipeState := ⟨qs, [], [], 0, []⟩

def emptyResult : Result :=
  { question := "", marks := none, answer := "", imageUrl := none, sources := [] }

/-- The final `questions.map(q => resultsMap.get(q.text)!)` reindexing
(`emptyResult` stands for the impossible missed lookup of the `!`). -/
def genOutput (qs : List Question) (s : PipeState) : List Result :=
  qs.map (fun q => (((s.resMap.find? (fun p => p.1 == q.text)).map Prod.snd).getD emptyResult))

/-- The per-question worker function, as the scheduler sees it. -/
def pipeProc (notes : ParsedNotes) (oracle : Question → QuestionOracle) :
    Question → Result :=
  fun q => processSingleQuestion notes q (oracle q)

def texts (qs : List Question) : List String := qs.map Question.text

/-! ## `parsePdf` (fileParser.ts)

Browser effects are explicit per-page data: `embeddedImages` holds the
canvas-encoded payload of each successfully decoded `paintImageXObject`
(the source pushes one entry per image whose encode returned a non-empty
string; `""` stands for an encode that produced nothing), and
`renderOutcome` is the base64 payload of the 1.5x-scale page render, or
`none` when the render threw, had no 2d context, or yielded no data. -/

structure PdfPage where
  pageText : String
  embeddedImages : List String
  renderOutcome : Option String
deriving DecidableEq, Repr

/-- De-duplication key: `img.data.substring(0, 100)`. -/
def dedupKey (img : ImagePart) : String := jsTake img.data 100

/-- JS `Map.set` over image entries (existing key keeps position, value
overwritten; new key appended). -/
def imgMapSet (m : List (String × ImagePart)) (k : String) (v : ImagePart) :
    List (String × ImagePart) :=
  if m.any (fun p => p.1 == k) then m.map (fun p => if p.1 == k then (k, v) else p)
  else m ++ [(k, v)]

/-- `Array.from(new Map(images.map(img => [img.data.substring(0,100), img])).values())`. -/
def dedupeImages (imgs : List ImagePart) : List ImagePart :=
  (imgs.foldl (fun m img => imgMapSet m (dedupKey img) img) []).map Prod.snd

/-- Images one page contributes before de-duplication: decoded embedded
images, then — when the text layer is under the 100-character scan
threshold — the full-page render, if it produced data. -/
def collectPageImages (p : PdfPage) : List ImagePart :=
  (p.embeddedImages.filter (fun d => !(d == ""))).map
      (fun d => { data := d, mimeType := "image/jpeg" }) ++
    (if (jsTrim p.pageText).length < 100 then
      match p.renderOutcome with
      | some d => if d == "" then [] else [{ data := d, mimeType := "image/jpeg" }]
      | none => []
    else [])

def pdfCollectedImages (pages : List PdfPage) : List ImagePart :=
  (pages.map collectPageImages).flatten

def pdfText (pages : List PdfPage) : String :=
  pages.foldl (fun acc p => acc ++ p.pageText ++ "\n") ""

/-- `parsePdf`: page texts joined, images collected then de-duplicated. -/
def parsePdf (pages : List PdfPage) : ParsedNotes :=
  { text := pdfText pages, images := dedupeImages (pdfCollectedImages pages) }

/-! ## Lemmas: the retry loop -/

/-- One unfolding of the retry loop. -/
theorem retryLoop_eq (call : Nat → Except String String) (a fuel : Nat) :
    retryLoop call a fuel =
      match call a with
      | .ok v => (.ok v, a + 1)
      | .error e =>
        if isRateLimitErr e then
          match fuel with
          | 0 => (.error rateLimitMsg, a + 1)
          | f + 1 => retryLoop call (a + 1) f
        else (.error e, a + 1) := by
  cases fuel <;> rfl

/-- A call whose `i`-th attempts for `i < K` (shifted by `a`) all fail with
rate-limit errors and whose attempt `K` succeeds exits the loop with the
success value after `K + 1` attempts, provided `K` retries were allowed. -/
theorem retryLoop_ok (K : Nat) : ∀ (call : Nat → Except String String) (a fuel : Nat)
    (v : String), (∀ i, i < K → ∃ e, call (a + i) = .error e ∧ isRateLimitErr e = true) →
    call (a + K) = .ok v → K ≤ fuel →
    retryLoop call a fuel = (.ok v, a + K + 1) := by
  induction K with
  | zero =>
    intro call a fuel v _ hok _
    rw [Nat.add_zero] at hok
    rw [retryLoop_eq]
    simp only [hok]
  | succ K ih =>
    intro call a fuel v hfail hok hle
    obtain ⟨e, he, hrl⟩ := hfail 0 (Nat.succ_pos K)
    rw [Nat.add_zero] at he
    obtain ⟨f, rfl⟩ : ∃ f, fuel = f + 1 := by
      cases fuel with
      | zero => exact absurd hle (by omega)
      | succ f => exact ⟨f, rfl⟩
    rw [retryLoop_eq]
    simp only [he, hrl, if_true]
    have := ih call (a + 1) f v
      (fun i hi => by
        obtain ⟨e', he', hrl'⟩ := hfail (i + 1) (by omega)
        exact ⟨e', by rw [show a + 1 + i = a + (i + 1) by omega]; exact he', hrl'⟩)
      (by rw [show a + 1 + K = a + (K + 1) by omega]; exact hok)
      (by omega)
    rw [this]
    congr 1
    omega

/-- When every allowed attempt fails with a rate-limit error, the loop
gives up with the fixed exhaustion error after `fuel + 1` attempts. -/
theorem retryLoop_exhaust (fuel : Nat) : ∀ (call : Nat → Except String String) (a : Nat),
    (∀ i, i ≤ fuel → ∃ e, call (a + i) = .error e ∧ isRateLimitErr e = true) →
    retryLoop call a fuel = (.error rateLimitMsg, a + fuel + 1) := by
  induction fuel with
  | zero =>
    intro call a hfail
    obtain ⟨e, he, hrl⟩ := hfail 0 (Nat.le_refl 0)
    rw [Nat.add_zero] at he
    rw [retryLoop_eq]
    simp only [he, hrl, if_true]
  | succ f ih =>
    intro call a hfail
    obtain ⟨e, he, hrl⟩ := hfail 0 (by omega)
    rw [Nat.add_zero] at he
    rw [retryLoop_eq]
    simp only [he, hrl, if_true]
    have := ih call (a + 1)
      (fun i hi => by
        obtain ⟨e', he', hrl'⟩ := hfail (i + 1) (by omega)
        exact ⟨e', by rw [show a + 1 + i = a + (i + 1) by omega]; exact he', hrl'⟩)
    rw [this]
    congr 1
    omega

/-! ## Lemmas: the per-question protocol -/

/-- Whatever happens, the produced `Result` carries the question's text. -/
theorem processSingleQuestion_question (notes : ParsedNotes) (q : Question)
    (o : QuestionOracle) : (processSingleQuestion notes q o).question = q.text := by
  unfold processSingleQuestion processQuestionFull processCore
  cases hp : o.probe with
  | error e => rfl
  | ok pt =>
    dsimp only
    cases hs : o.synthesis (strContains (jsToUpper (jsTrim pt)) "NO") with
    | error e => rfl
    | ok ftc =>
      obtain ⟨ft, ch⟩ := ftc
      rfl

/-- Same for the mark allocation. -/
theorem processSingleQuestion_marks (notes : ParsedNotes) (q : Question)
    (o : QuestionOracle) : (processSingleQuestion notes q o).marks = q.marks := by
  unfold processSingleQuestion processQuestionFull processCore
  cases hp : o.probe with
  | error e => rfl
  | ok pt =>
    dsimp only
    cases hs : o.synthesis (strContains (jsToUpper (jsTrim pt)) "NO") with
    | error e => rfl
    | ok ftc =>
      obtain ⟨ft, ch⟩ := ftc
      rfl

/-- An error escaping the probe or synthesis stage is converted at the
question boundary into the fallback `Result`. -/
theorem processSingleQuestion_error (notes : ParsedNotes) (q : Question)
    (o : QuestionOracle) (e : String) (h : processCore notes q o = .error e) :
    processSingleQuestion notes q o =
      { question := q.text, marks := q.marks, answer := fallbackAnswer e
      , imageUrl := none, sources := [] } := by
  unfold processSingleQuestion processQuestionFull
  rw [h]

/-- Sources surviving `mkSources` have a non-empty uri. -/
theorem mkSources_uri (chunks : List GroundingChunk) (s : Source)
    (h : s ∈ mkSources chunks) : s.uri ≠ "" := by
  unfold mkSources at h
  have := (List.mem_filter.mp h).2
  intro hv
  rw [hv] at this
  simp at this

/-- Every `Result` out of the per-question protocol — success or fallback —
has only non-empty source uris. -/
theorem processSingleQuestion_sources (notes : ParsedNotes) (q : Question)
    (o : QuestionOracle) (s : Source)
    (h : s ∈ (processSingleQuestion notes q o).sources) : s.uri ≠ "" := by
  unfold processSingleQuestion processQuestionFull processCore at h
  cases hp : o.probe with
  | error e =>
    rw [hp] at h
    simp at h
  | ok pt =>
    rw [hp] at h
    dsimp only at h
    cases hs : o.synthesis (strContains (jsToUpper (jsTrim pt)) "NO") with
    | error e =>
      rw [hs] at h
      simp at h
    | ok ftc =>
      obtain ⟨ft, ch⟩ := ftc
      rw [hs] at h
      exact mkSources_uri ch s h

/-! ## Lemmas: the results map -/

theorem mapSet_mem (m : List (String × Result)) (k : String) (v : Result)
    (p : String × Result) (h : p ∈ mapSet m k v) : p ∈ m ∨ p = (k, v) := by
  unfold mapSet at h
  by_cases ha : m.any (fun p => p.1 == k)
  · rw [if_pos ha] at h
    obtain ⟨p₀, hp₀, hf⟩ := List.mem_map.mp h
    by_cases hk : p₀.1 == k
    · rw [if_pos hk] at hf
      exact Or.inr hf.symm
    · rw [if_neg hk] at hf
      exact Or.inl (hf ▸ hp₀)
  · rw [if_neg ha] at h
    rcases List.mem_append.mp h with h' | h'
    · exact Or.inl h'
    · exact Or.inr (List.mem_singleton.mp h')

theorem mapSet_key_mem (m : List (String × Result)) (k : String) (v : Result) :
    ∃ p, p ∈ mapSet m k v ∧ p.1 = k := by
  unfold mapSet
  by_cases ha : m.any (fun p => p.1 == k)
  · rw [if_pos ha]
    obtain ⟨p₀, hp₀, hk⟩ := List.any_eq_true.mp ha
    refine ⟨(k, v), List.mem_map.mpr ⟨p₀, hp₀, ?_⟩, rfl⟩
    rw [if_pos hk]
  · rw [if_neg ha]
    exact ⟨(k, v), List.mem_append.mpr (Or.inr (List.mem_singleton.mpr rfl)), rfl⟩

theorem mapSet_preserves_key (m : List (String × Result)) (k K : String) (v : Result)
    (h : ∃ p, p ∈ m ∧ p.1 = K) : ∃ p, p ∈ mapSet m k v ∧ p.1 = K := by
  obtain ⟨p, hp, hK⟩ := h
  unfold mapSet
  by_cases ha : m.any (fun p => p.1 == k)
  · rw [if_pos ha]
    by_cases hk : p.1 == k
    · refine ⟨(k, v), List.mem_map.mpr ⟨p, hp, ?_⟩, ?_⟩
      · rw [if_pos hk]
      · have : p.1 = k := by simpa using hk
        rw [← this, hK]
    · refine ⟨p, List.mem_map.mpr ⟨p, hp, ?_⟩, hK⟩
      rw [if_neg hk]
  · rw [if_neg ha]
    exact ⟨p, List.mem_append.mpr (Or.inl hp), hK⟩

/-! ## Lemmas: the scheduler invariant -/

/-- The inductive invariant of a `generateAnswers` run over `qs`. -/
structure GenInv (proc : Question → Result) (qs : List Question) (s : PipeState) : Prop where
  count : s.completed + s.queue.length + s.inFlight.length = qs.length
  ev : s.events = (List.range s.completed).map (fun i => (i + 1, qs.length))
  covered : ∀ q, q ∈ qs →
    (∃ p, p ∈ s.resMap ∧ p.1 = q.text) ∨ q ∈ s.queue ∨ q ∈ s.inFlight
  entries : ∀ p, p ∈ s.resMap → ∃ q, q ∈ qs ∧ q.text = p.1 ∧ p.2 = proc q
  pendMem : ∀ q, q ∈ s.queue ∨ q ∈ s.inFlight → q ∈ qs

theorem genInv_init (proc : Question → Result) (qs : List Question) :
    GenInv proc qs (initState qs) := by
  constructor
  · simp [initState]
  · simp [initState]
  · intro q hq
    exact Or.inr (Or.inl hq)
  · intro p hp
    simp [initState] at hp
  · intro q hq
    rcases hq with h | h
    · exact h
    · simp [initState] at h

theorem genInv_step (proc : Question → Result) (qs : List Question) (limit : Nat)
    (s t : PipeState) (hInv : GenInv proc qs s)
    (hst : GenStep proc qs.length limit s t) : GenInv proc qs t := by
  cases hst with
  | start q rest inF m c ev hlen =>
    obtain ⟨hcount, hev, hcov, hent, hpend⟩ := hInv
    constructor
    · simp only at hcount ⊢
      simp [List.length_append] at hcount ⊢
      omega
    · exact hev
    · intro q' hq'
      rcases hcov q' hq' with h | h | h
      · exact Or.inl h
      · rcases List.mem_cons.mp h with h' | h'
        · exact Or.inr (Or.inr (List.mem_append.mpr (Or.inr (by simp [h']))))
        · exact Or.inr (Or.inl h')
      · exact Or.inr (Or.inr (List.mem_append.mpr (Or.inl h)))
    · exact hent
    · intro q' hq'
      rcases hq' with h | h
      · exact hpend q' (Or.inl (List.mem_cons.mpr (Or.inr h)))
      · rcases List.mem_append.mp h with h' | h'
        · exact hpend q' (Or.inr h')
        · exact hpend q' (Or.inl (by simp [List.mem_singleton.mp h']))
  | finish q qu pre post m c ev =>
    obtain ⟨hcount, hev, hcov, hent, hpend⟩ := hInv
    have hqmem : q ∈ qs :=
      hpend q (Or.inr (List.mem_append.mpr (Or.inr (List.mem_cons.mpr (Or.inl rfl)))))
    constructor
    · simp only at hcount ⊢
      simp [List.length_append] at hcount ⊢
      omega
    · simp only at hev ⊢
      rw [hev, List.range_succ, List.map_append]
      rfl
    · intro q' hq'
      rcases hcov q' hq' with h | h | h
      · exact Or.inl (mapSet_preserves_key m q.text q'.text (proc q) h)
      · exact Or.inr (Or.inl h)
      · rcases List.mem_append.mp h with h' | h'
        · exact Or.inr (Or.inr (List.mem_append.mpr (Or.inl h')))
        · rcases List.mem_cons.mp h' with h'' | h''
          · refine Or.inl ?_
            obtain ⟨p, hp, hk⟩ := mapSet_key_mem m q.text (proc q)
            exact ⟨p, hp, by rw [hk, h'']⟩
          · exact Or.inr (Or.inr (List.mem_append.mpr (Or.inr h'')))
    · intro p hp
      rcases mapSet_mem m q.text (proc q) p hp with h | h
      · exact hent p h
      · exact ⟨q, hqmem, by rw [h], by rw [h]⟩
    · intro q' hq'
      rcases hq' with h | h
      · exact hpend q' (Or.inl h)
      · rcases List.mem_append.mp h with h' | h'
        · exact hpend q' (Or.inr (List.mem_append.mpr (Or.inl h')))
        · exact hpend q'
            (Or.inr (List.mem_append.mpr (Or.inr (List.mem_cons.mpr (Or.inr h')))))

theorem genInv_run (proc : Question → Result) (qs : List Question) (limit : Nat)
    (s : PipeState) (hrun : GenRun proc qs.length limit (initState qs) s) :
    GenInv proc qs s := by
  induction hrun with
  | refl => exact genInv_init proc qs
  | tail _ hst ih => exact genInv_step proc qs limit _ _ ih hst

/-! ## Lemmas: terminal states -/

theorem find_key_exists (m : List (String × Result)) (k : String)
    (h : ∃ p, p ∈ m ∧ p.1 = k) :
    ∃ p, m.find? (fun p => p.1 == k) = some p ∧ p ∈ m ∧ p.1 = k := by
  induction m with
  | nil =>
    obtain ⟨p, hp, _⟩ := h
    simp at hp
  | cons a t ih =>
    by_cases ha : a.1 = k
    · refine ⟨a, ?_, List.mem_cons_self a t, ha⟩
      exact List.find?_cons_of_pos t (by simpa using ha)
    · obtain ⟨p, hp, hk⟩ := h
      rcases List.mem_cons.mp hp with h' | h'
      · exact absurd (h' ▸ hk) ha
      · obtain ⟨p', hf, hmem, hk'⟩ := ih ⟨p, h', hk⟩
        refine ⟨p', ?_, List.mem_cons.mpr (Or.inr hmem), hk'⟩
        rw [List.find?_cons_of_neg t (by simpa using ha)]
        exact hf

/-- In a drained state every question's text has a map entry, holding the
processed result of some input question with the same text. -/
theorem terminal_lookup (proc : Question → Result) (qs : List Question) (s : PipeState)
    (hInv : GenInv proc qs s) (hq : s.queue = []) (hf : s.inFlight = [])
    (q : Question) (hmem : q ∈ qs) :
    ∃ p, s.resMap.find? (fun p => p.1 == q.text) = some p ∧
      ∃ q', q' ∈ qs ∧ q'.text = q.text ∧ p.2 = proc q' := by
  have hcov := hInv.covered q hmem
  rw [hq, hf] at hcov
  have hcov' : ∃ p, p ∈ s.resMap ∧ p.1 = q.text := by
    rcases hcov with h | h | h
    · exact h
    · simp at h
    · simp at h
  obtain ⟨p, hfind, hpmem, hk⟩ := find_key_exists s.resMap q.text hcov'
  obtain ⟨q', hq', htext, hval⟩ := hInv.entries p hpmem
  exact ⟨p, hfind, q', hq', by rw [htext, hk], hval⟩

theorem genOutput_get (qs : List Question) (s : PipeState) (i : Nat) :
    (genOutput qs s).get? i = (qs.get? i).map
      (fun q => (((s.resMap.find? (fun p => p.1 == q.text)).map Prod.snd).getD emptyResult)) := by
  unfold genOutput
  exact List.get?_map _ _ _

theorem terminal_completed (proc : Question → Result) (qs : List Question) (s : PipeState)
    (hInv : GenInv proc qs s) (hq : s.queue = []) (hf : s.inFlight = []) :
    s.completed = qs.length := by
  have hc := hInv.count
  rw [hq, hf] at hc
  simpa using hc

/-- Index-wise: the output's `question` fields are the input texts, in the
caller's order. -/
theorem terminal_output_question (proc : Question → Result) (qs : List Question)
    (s : PipeState) (hInv : GenInv proc qs s) (hq : s.queue = []) (hf : s.inFlight = [])
    (hproc : ∀ q, (proc q).question = q.text) (i : Nat) :
    ((genOutput qs s).get? i).map Result.question = (qs.get? i).map Question.text := by
  rw [genOutput_get]
  cases hgi : qs.get? i with
  | none => rfl
  | some q =>
    have hmem : q ∈ qs := List.get?_mem hgi
    obtain ⟨p, hfind, q', hq', htext, hval⟩ := terminal_lookup proc qs s hInv hq hf q hmem
    dsimp only [Option.map]
    rw [hfind]
    dsimp
    rw [hval, hproc q', htext]

/-- With pairwise-distinct question texts the run's output is exactly
`qs.map proc`, independent of the interleaving. -/
theorem terminal_output_nodup (proc : Question → Result) (qs : List Question)
    (s : PipeState) (hInv : GenInv proc qs s) (hq : s.queue = []) (hf : s.inFlight = [])
    (hnd : (texts qs).Nodup) : genOutput qs s = qs.map proc := by
  unfold genOutput
  apply List.map_congr_left
  intro q hmem
  obtain ⟨p, hfind, q', hq', htext, hval⟩ := terminal_lookup proc qs s hInv hq hf q hmem
  rw [hfind]
  dsimp
  rw [hval]
  congr 1
  exact List.inj_on_of_nodup_map hnd hq' hmem htext

/-- Every output entry is the processed result of some input question. -/
theorem terminal_output_mem (proc : Question → Result) (qs : List Question)
    (s : PipeState) (hInv : GenInv proc qs s) (hq : s.queue = []) (hf : s.inFlight = [])
    (r : Result) (hr : r ∈ genOutput qs s) : ∃ q, q ∈ qs ∧ r = proc q := by
  unfold genOutput at hr
  obtain ⟨q, hqmem, hfq⟩ := List.mem_map.mp hr
  obtain ⟨p, hfind, q', hq', htext, hval⟩ := terminal_lookup proc qs s
    (by exact hInv) hq hf q hqmem
  refine ⟨q', hq', ?_⟩
  rw [← hfq, hfind]
  dsimp
  rw [hval]

/-! ## Lemmas: image de-duplication -/

/-- Invariant of the JS-`Map` accumulator: keys are pairwise distinct and
every stored image's de-dup key is its map key. -/
def ImgInv (m : List (String × ImagePart)) : Prop :=
  (m.map Prod.fst).Nodup ∧ ∀ p, p ∈ m → dedupKey p.2 = p.1

theorem imgMapSet_fst_of_any (m : List (String × ImagePart)) (k : String) (v : ImagePart)
    (ha : m.any (fun p => p.1 == k) = true) :
    (imgMapSet m k v).map Prod.fst = m.map Prod.fst := by
  unfold imgMapSet
  rw [if_pos ha, List.map_map]
  apply List.map_congr_left
  intro p _
  by_cases hk : p.1 == k
  · simp only [Function.comp, if_pos hk]
    exact (by simpa using hk : p.1 = k).symm
  · simp only [Function.comp, if_neg hk]

theorem imgMapSet_inv (m : List (String × ImagePart)) (k : String) (v : ImagePart)
    (h : ImgInv m) (hv : dedupKey v = k) : ImgInv (imgMapSet m k v) := by
  obtain ⟨hnd, hkey⟩ := h
  by_cases ha : m.any (fun p => p.1 == k)
  · constructor
    · rw [imgMapSet_fst_of_any m k v ha]
      exact hnd
    · intro p hp
      unfold imgMapSet at hp
      rw [if_pos ha] at hp
      obtain ⟨p₀, hp₀, hf⟩ := List.mem_map.mp hp
      by_cases hk : p₀.1 == k
      · rw [if_pos hk] at hf
        rw [← hf]
        exact hv
      · rw [if_neg hk] at hf
        exact hf ▸ hkey p₀ hp₀
  · constructor
    · unfold imgMapSet
      rw [if_neg ha, List.map_append]
      rw [List.nodup_append]
      refine ⟨hnd, List.nodup_singleton k, ?_⟩
      intro x hx hx'
      have hxk : x = k := by simpa using hx'
      obtain ⟨p, hp, hpk⟩ := List.mem_map.mp hx
      have : m.any (fun p => p.1 == k) = true :=
        List.any_eq_true.mpr ⟨p, hp, by simp [hpk, hxk]⟩
      exact ha this
    · intro p hp
      unfold imgMapSet at hp
      rw [if_neg ha] at hp
      rcases List.mem_append.mp hp with h' | h'
      · exact hkey p h'
      · have : p = (k, v) := List.mem_singleton.mp h'
        rw [this]
        exact hv

theorem imgMapSet_key_iff (m : List (String × ImagePart)) (k K : String) (v : ImagePart)
    (ha : m.any (fun p => p.1 == k) = true ∨ m.any (fun p => p.1 == k) = false) :
    (K ∈ (imgMapSet m k v).map Prod.fst ↔ K ∈ m.map Prod.fst ∨ K = k) := by
  rcases ha with ha | ha
  · rw [imgMapSet_fst_of_any m k v ha]
    constructor
    · exact Or.inl
    · rintro (h | rfl)
      · exact h
      · obtain ⟨p, hp, hpk⟩ := List.any_eq_true.mp ha
        exact List.mem_map.mpr ⟨p, hp, by simpa using hpk⟩
  · unfold imgMapSet
    rw [if_neg (by simp [ha]), List.map_append]
    rw [List.mem_append]
    simp

/-- Key membership in the de-dup fold: a key is present iff some processed
image has it. -/
theorem dedup_fold_keys (imgs : List ImagePart) :
    ∀ (m₀ : List (String × ImagePart)), ImgInv m₀ →
      ImgInv (imgs.foldl (fun m img => imgMapSet m (dedupKey img) img) m₀) ∧
      ∀ K, K ∈ (imgs.foldl (fun m img => imgMapSet m (dedupKey img) img) m₀).map Prod.fst ↔
        (K ∈ m₀.map Prod.fst ∨ ∃ img, img ∈ imgs ∧ dedupKey img = K) := by
  induction imgs with
  | nil =>
    intro m₀ h₀
    refine ⟨h₀, fun K => ?_⟩
    simp
  | cons a t ih =>
    intro m₀ h₀
    have h₁ : ImgInv (imgMapSet m₀ (dedupKey a) a) := imgMapSet_inv m₀ _ a h₀ rfl
    obtain ⟨hinv, hkeys⟩ := ih (imgMapSet m₀ (dedupKey a) a) h₁
    refine ⟨hinv, fun K => ?_⟩
    rw [List.foldl_cons] at *
    rw [hkeys K, imgMapSet_key_iff m₀ (dedupKey a) K a (by
      rcases Bool.eq_false_or_eq_true (m₀.any (fun p => p.1 == dedupKey a)) with h | h
      · exact Or.inl h
      · exact Or.inr h)]
    constructor
    · rintro ((h | rfl) | h)
      · exact Or.inl h
      · exact Or.inr ⟨a, List.mem_cons_self a t, rfl⟩
      · obtain ⟨img, hi, hk⟩ := h
        exact Or.inr ⟨img, List.mem_cons.mpr (Or.inr hi), hk⟩
    · rintro (h | ⟨img, hi, hk⟩)
      · exact Or.inl (Or.inl h)
      · rcases List.mem_cons.mp hi with rfl | hi'
        · exact Or.inl (Or.inr hk.symm)
        · exact Or.inr ⟨img, hi', hk⟩

/-- With distinct keys and key-consistent values, exactly one stored value
matches a present key. -/
theorem count_values_of_inv (m : List (String × ImagePart)) (h : ImgInv m) (K : String)
    (hK : K ∈ m.map Prod.fst) :
    (m.map Prod.snd).countP (fun x => dedupKey x == K) = 1 := by
  induction m with
  | nil => simp at hK
  | cons a t ih =>
    obtain ⟨hnd, hkey⟩ := h
    rw [List.map_cons, List.nodup_cons] at hnd
    have hka : dedupKey a.2 = a.1 := hkey a (List.mem_cons_self a t)
    rw [List.map_cons, List.countP_cons]
    by_cases hK1 : a.1 = K
    · have hpred : (dedupKey a.2 == K) = true := by simp [hka, hK1]
      rw [hpred]
      have hzero : (t.map Prod.snd).countP (fun x => dedupKey x == K) = 0 := by
        rw [List.countP_eq_zero]
        intro x hx
        obtain ⟨p, hp, hpx⟩ := List.mem_map.mp hx
        simp only [beq_iff_eq]
        rw [← hpx, hkey p (List.mem_cons.mpr (Or.inr hp)), ← hK1]
        intro hcontra
        exact hnd.1 (List.mem_map.mpr ⟨p, hp, hcontra⟩)
      rw [hzero]
      simp
    · have hpred : (dedupKey a.2 == K) = false := by simp [hka, hK1]
      rw [hpred]
      have hKt : K ∈ t.map Prod.fst := by
        rcases List.mem_cons.mp hK with h' | h'
        · exact absurd h'.symm hK1
        · exact h'
      have := ih ⟨hnd.2, fun p hp => hkey p (List.mem_cons.mpr (Or.inr hp))⟩ hKt
      rw [this]
      simp

/-- An input image's key occurs exactly once among the de-duplicated images. -/
theorem dedupeImages_count (imgs : List ImagePart) (img : ImagePart) (h : img ∈ imgs) :
    (dedupeImages imgs).countP (fun x => dedupKey x == dedupKey img) = 1 := by
  unfold dedupeImages
  obtain ⟨hinv, hkeys⟩ := dedup_fold_keys imgs [] ⟨List.nodup_nil, by intro p hp; simp at hp⟩
  apply count_values_of_inv _ hinv
  rw [hkeys]
  exact Or.inr ⟨img, h, rfl⟩

/-- De-duplication never loses a key: some surviving image shares it. -/
theorem dedupeImages_key_mem (imgs : List ImagePart) (img : ImagePart) (h : img ∈ imgs) :
    ∃ x, x ∈ dedupeImages imgs ∧ dedupKey x = dedupKey img := by
  unfold dedupeImages
  obtain ⟨hinv, hkeys⟩ := dedup_fold_keys imgs [] ⟨List.nodup_nil, by intro p hp; simp at hp⟩
  have hK : dedupKey img ∈ (imgs.foldl (fun m i => imgMapSet m (dedupKey i) i) []).map Prod.fst := by
    rw [hkeys]
    exact Or.inr ⟨img, h, rfl⟩
  obtain ⟨p, hp, hpk⟩ := List.mem_map.mp hK
  exact ⟨p.2, List.mem_map.mpr ⟨p, hp, rfl⟩, by rw [hinv.2 p hp, hpk]⟩

/-! ## Concrete fixtures -/

def notesA : ParsedNotes := ⟨"Sample notes text.", []⟩

def qA : Question := ⟨"Q1", none⟩

def qB : Question := ⟨"Q2", some "5 marks"⟩

/-- An oracle where every stage succeeds plainly. -/
def oracleOK : Question → QuestionOracle := fun _ =>
  { probe := .ok "YES"
  , synthesis := fun _ => .ok ("An answer.", [])
  , imageGen := fun _ => .ok none }

/-- Like `oracleOK` but the synthesis stage of question `Q2` always fails. -/
def oracleFail : Question → QuestionOracle := fun q =>
  if q.text == "Q2" then
    { probe := .ok "YES", synthesis := fun _ => .error "boom", imageGen := fun _ => .ok none }
  else oracleOK q

def sEndA : PipeState :=
  ⟨[], [], mapSet [] qA.text (pipeProc notesA oracleOK qA), 1, [(1, 1)]⟩

/-- A complete concrete run over the single question `qA`. -/
theorem runA : GenRun (pipeProc notesA oracleOK) 1 CONCURRENCY_LIMIT (initState [qA]) sEndA := by
  have h1 : GenStep (pipeProc notesA oracleOK) 1 CONCURRENCY_LIMIT (initState [qA])
      ⟨[], [qA], [], 0, []⟩ := GenStep.start qA [] [] [] 0 [] (by decide)
  have h2 : GenStep (pipeProc notesA oracleOK) 1 CONCURRENCY_LIMIT
      ⟨[], [qA], [], 0, []⟩ sEndA := GenStep.finish qA [] [] [] [] 0 []
  exact GenRun.tail (GenRun.tail (GenRun.refl _) h1) h2

def pairEnd (proc : Question → Result) : PipeState :=
  ⟨[], [], mapSet (mapSet [] qA.text (proc qA)) qB.text (proc qB), 2, [(1, 2), (2, 2)]⟩

/-- A complete concrete run over `[qA, qB]`, for any worker function. -/
theorem runPair (proc : Question → Result) :
    GenRun proc 2 CONCURRENCY_LIMIT (initState [qA, qB]) (pairEnd proc) := by
  have h1 : GenStep proc 2 CONCURRENCY_LIMIT (initState [qA, qB])
      ⟨[qB], [qA], [], 0, []⟩ := GenStep.start qA [qB] [] [] 0 [] (by decide)
  have h2 : GenStep proc 2 CONCURRENCY_LIMIT ⟨[qB], [qA], [], 0, []⟩
      ⟨[qB], [], mapSet [] qA.text (proc qA), 1, [(1, 2)]⟩ :=
    GenStep.finish qA [qB] [] [] [] 0 []
  have h3 : GenStep proc 2 CONCURRENCY_LIMIT
      ⟨[qB], [], mapSet [] qA.text (proc qA), 1, [(1, 2)]⟩
      ⟨[], [qB], mapSet [] qA.text (proc qA), 1, [(1, 2)]⟩ :=
    GenStep.start qB [] [] (mapSet [] qA.text (proc qA)) 1 [(1, 2)] (by decide)
  have h4 : GenStep proc 2 CONCURRENCY_LIMIT
      ⟨[], [qB], mapSet [] qA.text (proc qA), 1, [(1, 2)]⟩ (pairEnd proc) :=
    GenStep.finish qB [] [] [] (mapSet [] qA.text (proc qA)) 1 [(1, 2)]
  exact GenRun.tail (GenRun.tail (GenRun.tail (GenRun.tail (GenRun.refl _) h1) h2) h3) h4

def imgs3 : List ImagePart :=
  [⟨"IMGA", "image/jpeg"⟩, ⟨"IMGB", "image/png"⟩, ⟨"IMGC", "image/jpeg"⟩]

def callW : Nat → Except String String :=
  fun i => if i < 2 then .error "429" else .ok "done"

/-- An oracle whose synthesis comes back with one grounded citation. -/
def oracleSrc : Question → QuestionOracle := fun _ =>
  { probe := .ok "YES"
  , synthesis := fun _ => .ok ("An answer.", [⟨some ⟨some "http://a", some "T"⟩⟩])
  , imageGen := fun _ => .ok none }

def sEndSrc : PipeState :=
  ⟨[], [], mapSet [] qA.text (pipeProc notesA oracleSrc qA), 1, [(1, 1)]⟩

/-- A complete concrete run over `qA` under `oracleSrc`. -/
theorem runSrc : GenRun (pipeProc notesA oracleSrc) 1 CONCURRENCY_LIMIT (initState [qA]) sEndSrc := by
  have h1 : GenStep (pipeProc notesA oracleSrc) 1 CONCURRENCY_LIMIT (initState [qA])
      ⟨[], [qA], [], 0, []⟩ := GenStep.start qA [] [] [] 0 [] (by decide)
  have h2 : GenStep (pipeProc notesA oracleSrc) 1 CONCURRENCY_LIMIT
      ⟨[], [qA], [], 0, []⟩ sEndSrc := GenStep.finish qA [] [] [] [] 0 []
  exact GenRun.tail (GenRun.tail (GenRun.refl _) h1) h2

/-! ## Claims -/

/-- C1: for every non-empty input list of `Question`s of length N, the
answer pipeline returns exactly N `Result` entries, one per input
question, in the caller-supplied order — the i-th output's `question`
field is the i-th input's text — for every worker interleaving that
drains the queue. -/
theorem claim1_pipeline_totality_order
    (notes : ParsedNotes) (oracle : Question → QuestionOracle)
    (qs : List Question) (limit : Nat) (s : PipeState)
    (hne : qs ≠ []) (hlim : 1 ≤ limit)
    (hrun : GenRun (pipeProc notes oracle) qs.length limit (initState qs) s)
    (hq : s.queue = []) (hf : s.inFlight = []) :
    (genOutput qs s).length = qs.length ∧
    ∀ i : Nat, ((genOutput qs s).get? i).map Result.question =
      (qs.get? i).map Question.text := by
  have hInv := genInv_run (pipeProc notes oracle) qs limit s hrun
  refine ⟨by simp [genOutput], ?_⟩
  intro i
  exact terminal_output_question _ qs s hInv hq hf
    (fun q => processSingleQuestion_question notes q (oracle q)) i

/-- Witness for C1: a completed two-step run over one question, read at
index 0. -/
theorem claim1_witness :
    (genOutput [qA] sEndA).length = 1 ∧
    ((genOutput [qA] sEndA).get? 0).map Result.question =
      (([qA] : List Question).get? 0).map Question.text :=
  ⟨(claim1_pipeline_totality_order notesA oracleOK [qA] CONCURRENCY_LIMIT sEndA
      (List.cons_ne_nil qA []) (by decide) runA rfl rfl).1,
   (claim1_pipeline_totality_order notesA oracleOK [qA] CONCURRENCY_LIMIT sEndA
      (List.cons_ne_nil qA []) (by decide) runA rfl rfl).2 0⟩

/-- C4: across one full pipeline run over N questions with pool size
P ≥ 1, the progress callback fires exactly N times, with `completed`
values exactly 1..N in order and `total = N` on every invocation. -/
theorem claim4_progress_exact
    (notes : ParsedNotes) (oracle : Question → QuestionOracle)
    (qs : List Question) (limit : Nat) (s : PipeState) (hlim : 1 ≤ limit)
    (hrun : GenRun (pipeProc notes oracle) qs.length limit (initState qs) s)
    (hq : s.queue = []) (hf : s.inFlight = []) :
    s.events.length = qs.length ∧
    s.events = (List.range qs.length).map (fun i => (i + 1, qs.length)) ∧
    s.events.map Prod.fst = (List.range qs.length).map (fun i => i + 1) ∧
    ∀ e, e ∈ s.events → e.2 = qs.length := by
  have hInv := genInv_run (pipeProc notes oracle) qs limit s hrun
  have hc := terminal_completed _ qs s hInv hq hf
  have he := hInv.ev
  rw [hc] at he
  refine ⟨by rw [he]; simp, he, ?_, ?_⟩
  · rw [he, List.map_map]
    apply List.map_congr_left
    intro i _
    rfl
  · intro e hemem
    rw [he] at hemem
    obtain ⟨i, _, hi⟩ := List.mem_map.mp hemem
    rw [← hi]

/-- Witness for C4: the two-question run fires (1,2) then (2,2). -/
theorem claim4_witness :
    (pairEnd (pipeProc notesA oracleOK)).events.length = 2 ∧
    (pairEnd (pipeProc notesA oracleOK)).events =
      (List.range 2).map (fun i => (i + 1, 2)) ∧
    (pairEnd (pipeProc notesA oracleOK)).events.map Prod.fst =
      (List.range 2).map (fun i => i + 1) ∧
    ((1, 2) : Nat × Nat).2 = 2 :=
  ⟨(claim4_progress_exact notesA oracleOK [qA, qB] CONCURRENCY_LIMIT
      (pairEnd (pipeProc notesA oracleOK)) (by decide)
      (runPair (pipeProc notesA oracleOK)) rfl rfl).1,
   (claim4_progress_exact notesA oracleOK [qA, qB] CONCURRENCY_LIMIT
      (pairEnd (pipeProc notesA oracleOK)) (by decide)
      (runPair (pipeProc notesA oracleOK)) rfl rfl).2.1,
   (claim4_progress_exact notesA oracleOK [qA, qB] CONCURRENCY_LIMIT
      (pairEnd (pipeProc notesA oracleOK)) (by decide)
      (runPair (pipeProc notesA oracleOK)) rfl rfl).2.2.1,
   (claim4_progress_exact notesA oracleOK [qA, qB] CONCURRENCY_LIMIT
      (pairEnd (pipeProc notesA oracleOK)) (by decide)
      (runPair (pipeProc notesA oracleOK)) rfl rfl).2.2.2 (1, 2) (by decide)⟩

/-- C6: no `Result` the pipeline returns carries a source with an empty
uri: grounding chunks without a web uri are dropped, and fallback results
carry no sources at all. -/
theorem claim6_sources_nonempty_uri
    (notes : ParsedNotes) (oracle : Question → QuestionOracle)
    (qs : List Question) (limit : Nat) (s : PipeState)
    (hrun : GenRun (pipeProc notes oracle) qs.length limit (initState qs) s)
    (hq : s.queue = []) (hf : s.inFlight = []) :
    ∀ r, r ∈ genOutput qs s → ∀ src, src ∈ r.sources → src.uri ≠ "" := by
  intro r hr src hsrc
  have hInv := genInv_run (pipeProc notes oracle) qs limit s hrun
  obtain ⟨q, hq', hrq⟩ := terminal_output_mem _ qs s hInv hq hf r hr
  subst hrq
  exact processSingleQuestion_sources notes q (oracle q) src hsrc

/-- Witness for C6 on a concrete run whose single result carries one
citation: that citation's uri is non-empty. -/
theorem claim6_witness :
    ({ uri := "http://a", title := "T" } : Source).uri ≠ "" :=
  claim6_sources_nonempty_uri notesA oracleSrc [qA] CONCURRENCY_LIMIT sEndSrc
    runSrc rfl rfl (pipeProc notesA oracleSrc qA) (by decide)
    ⟨"http://a", "T"⟩ (by decide)

/-- No scheduler event can fire from a drained state. -/
theorem no_step_of_terminal (proc : Question → Result) (total limit : Nat)
    (t u : PipeState) (hq : t.queue = []) (hf : t.inFlight = [])
    (hst : GenStep proc total limit t u) : False := by
  cases hst with
  | start q rest inF m c ev hlen => simp at hq
  | finish q qu pre post m c ev => simp at hf

/-- C10: on an empty question list the pipeline does nothing: the state
never moves, the output is empty, no progress event fires and no question
is ever processed. -/
theorem claim10_empty_input
    (notes : ParsedNotes) (oracle : Question → QuestionOracle)
    (limit : Nat) (s : PipeState)
    (hrun : GenRun (pipeProc notes oracle) (List.length ([] : List Question)) limit
      (initState []) s) :
    s = initState [] ∧ genOutput [] s = [] ∧ s.events = [] ∧ s.resMap = [] := by
  have hs : s = initState [] := by
    induction hrun with
    | refl => rfl
    | tail hpre hst ih =>
      rw [ih] at hst
      exact (no_step_of_terminal _ _ _ _ _ rfl rfl hst).elim
  subst hs
  exact ⟨rfl, rfl, rfl, rfl⟩

/-- Witness for C10: the empty (reflexive) run. -/
theorem claim10_witness :
    initState [] = initState [] ∧ genOutput [] (initState []) = [] ∧
    (initState ([] : List Question)).events = [] ∧
    (initState ([] : List Question)).resMap = [] :=
  claim10_empty_input notesA oracleOK CONCURRENCY_LIMIT (initState [])
    (GenRun.refl _)

/-- C2: an error escaping any uncaught stage of one question's processing
is converted at the question boundary into a fallback `Result` — with the
rate-limit message exactly when the error text carries a rate-limit
marker, the generic message otherwise, `imageUrl = none`, `sources = []`,
the question never dropped — and (with distinct question texts) every
other question's output entry depends only on its own oracle, so a
sibling's failure cannot change it. -/
theorem claim2_failure_isolation :
    (∀ (notes : ParsedNotes) (q : Question) (o : QuestionOracle) (e : String),
        processCore notes q o = .error e →
        processSingleQuestion notes q o =
          { question := q.text, marks := q.marks, answer := fallbackAnswer e
          , imageUrl := none, sources := [] }) ∧
    (∀ e, (strContains e "RESOURCE_EXHAUSTED" || strContains e "rate limit") = true →
        fallbackAnswer e = rateLimitFallback) ∧
    (∀ e, (strContains e "RESOURCE_EXHAUSTED" || strContains e "rate limit") = false →
        fallbackAnswer e = genericFallback) ∧
    rateLimitFallback ≠ genericFallback ∧
    (∀ (notes : ParsedNotes) (oracle oracle' : Question → QuestionOracle)
        (qs : List Question) (limit : Nat) (s s' : PipeState),
        (texts qs).Nodup →
        GenRun (pipeProc notes oracle) qs.length limit (initState qs) s →
        s.queue = [] → s.inFlight = [] →
        GenRun (pipeProc notes oracle') qs.length limit (initState qs) s' →
        s'.queue = [] → s'.inFlight = [] →
        ∀ (i : Nat) (q : Question), qs.get? i = some q → oracle q = oracle' q →
          (genOutput qs s).get? i = (genOutput qs s').get? i) := by
  refine ⟨?_, ?_, ?_, ?_, ?_⟩
  · intro notes q o e h
    exact processSingleQuestion_error notes q o e h
  · intro e h
    unfold fallbackAnswer
    rw [if_pos h]
  · intro e h
    unfold fallbackAnswer
    rw [if_neg (by simp [h])]
  · decide
  · intro notes oracle oracle' qs limit s s' hnd hrun hq hf hrun' hq' hf' i q hget hor
    have hInv := genInv_run (pipeProc notes oracle) qs limit s hrun
    have hInv' := genInv_run (pipeProc notes oracle') qs limit s' hrun'
    rw [terminal_output_nodup _ qs s hInv hq hf hnd,
        terminal_output_nodup _ qs s' hInv' hq' hf' hnd]
    rw [List.get?_map, List.get?_map, hget]
    dsimp only [Option.map, pipeProc]
    rw [hor]

/-- Witness for C2: `oracleFail` breaks `qB`'s synthesis; `qB` still gets
a full fallback `Result`, and `qA`'s entry in a completed two-question
run is the same as under the all-success oracle. -/
theorem claim2_witness :
    processSingleQuestion notesA qB (oracleFail qB) =
      { question := "Q2", marks := some "5 marks", answer := fallbackAnswer "boom"
      , imageUrl := none, sources := [] } ∧
    (genOutput [qA, qB] (pairEnd (pipeProc notesA oracleOK))).get? 0 =
      (genOutput [qA, qB] (pairEnd (pipeProc notesA oracleFail))).get? 0 :=
  ⟨claim2_failure_isolation.1 notesA qB (oracleFail qB) "boom" rfl,
   claim2_failure_isolation.2.2.2.2 notesA oracleOK oracleFail [qA, qB]
     CONCURRENCY_LIMIT (pairEnd (pipeProc notesA oracleOK))
     (pairEnd (pipeProc notesA oracleFail)) (by decide)
     (runPair (pipeProc notesA oracleOK)) rfl rfl
     (runPair (pipeProc notesA oracleFail)) rfl rfl 0 qA rfl rfl⟩

/-- C3 counterexample: when the retry budget is exhausted the thrown
error is the fixed string `rateLimitMsg`, identical for two different
original causes and containing neither, so it does not wrap the original
cause (the rest of the claim — K+1 attempts on success, max+1 attempts on
exhaustion — holds, see the amended theorem). -/
theorem claim3_counterexample :
    callApiWithRetry (fun _ => .error "status 429 quota exceeded cause-A") 3 =
      (.error rateLimitMsg, 4) ∧
    callApiWithRetry (fun _ => .error "status 429 quota exceeded cause-B") 3 =
      (.error rateLimitMsg, 4) ∧
    strContains rateLimitMsg "cause-A" = false ∧
    strContains rateLimitMsg "status 429 quota exceeded cause-A" = false :=
  ⟨rfl, rfl, by decide, by decide⟩

/-- C3 (amended): a call rate-limit-failing exactly K ≤ max times then
succeeding is attempted exactly K+1 times and returns the success value;
a call rate-limit-failing on every allowed attempt makes exactly max+1
attempts and fails with the fixed `rateLimitMsg` error (which does not
wrap the original cause). -/
theorem claim3_retry_attempts :
    (∀ (call : Nat → Except String String) (m K : Nat) (v : String),
      (∀ i, i < K → ∃ e, call i = .error e ∧ isRateLimitErr e = true) →
      call K = .ok v → K ≤ m →
      callApiWithRetry call m = (.ok v, K + 1)) ∧
    (∀ (call : Nat → Except String String) (m : Nat),
      (∀ i, i ≤ m → ∃ e, call i = .error e ∧ isRateLimitErr e = true) →
      callApiWithRetry call m = (.error rateLimitMsg, m + 1)) := by
  constructor
  · intro call m K v hfail hok hle
    unfold callApiWithRetry
    have := retryLoop_ok K call 0 m v
      (by intro i hi; rw [Nat.zero_add]; exact hfail i hi)
      (by rw [Nat.zero_add]; exact hok) hle
    rw [this]
    simp
  · intro call m hfail
    unfold callApiWithRetry
    have := retryLoop_exhaust m call 0
      (by intro i hi; rw [Nat.zero_add]; exact hfail i hi)
    rw [this]
    simp

/-- Witness for C3: concrete calls exercising both branches. -/
theorem claim3_witness :
    callApiWithRetry callW 3 = (.ok "done", 3) ∧
    callApiWithRetry (fun _ => .error "429") 1 = (.error rateLimitMsg, 2) :=
  ⟨claim3_retry_attempts.1 callW 3 2 "done"
      (fun i hi => ⟨"429", by unfold callW; rw [if_pos hi], by decide⟩)
      rfl (by decide),
   claim3_retry_attempts.2 (fun _ => .error "429") 1
      (fun i _ => ⟨"429", rfl, by decide⟩)⟩

/-- C9: a wrapped call failing with a non-rate-limit error is attempted
exactly once and the error propagates unchanged — no retry happens. -/
theorem claim9_short_circuit (call : Nat → Except String String) (m : Nat) (e : String)
    (h0 : call 0 = .error e) (hnr : isRateLimitErr e = false) :
    callApiWithRetry call m = (.error e, 1) := by
  unfold callApiWithRetry
  rw [retryLoop_eq]
  simp [h0, hnr]

/-- Witness for C9 at a concrete failing call. -/
theorem claim9_witness :
    callApiWithRetry (fun _ => .error "schema mismatch") 3 =
      (.error "schema mismatch", 1) :=
  claim9_short_circuit (fun _ => .error "schema mismatch") 3 "schema mismatch"
    rfl (by decide)

/-- C5: directive lines anywhere in the synthesis output are stripped
from the answer; `USE_IMAGE: [Image 2]` with 3 available images resolves
to the 2nd image's data URI with no image-generation call;
`GENERATE_IMAGE_PROMPT: a cat` issues exactly one generation call with
prompt `"a cat"`; an absent directive or an out-of-range 1-based index
leaves `imageUrl` empty. -/
theorem claim5_image_directive :
    parseAiResponse "Some answer text.\nUSE_IMAGE: [Image 2]" =
      { answer := "Some answer text.", imageDirective := some "USE_IMAGE: [Image 2]" } ∧
    parseAiResponse "Intro.\nUSE_IMAGE: [Image 2]\nOutro." =
      { answer := "Intro.\nOutro.", imageDirective := some "USE_IMAGE: [Image 2]" } ∧
    (∀ gen, resolveImage (some "USE_IMAGE: [Image 2]") imgs3 gen =
      (some "data:image/png;base64,IMGB", [])) ∧
    (∀ imgs, resolveImage (some "GENERATE_IMAGE_PROMPT: a cat") imgs
      (fun _ => .ok (some "CATBYTES")) =
      (some "data:image/jpeg;base64,CATBYTES", ["a cat"])) ∧
    (∀ imgs gen, resolveImage none imgs gen = (none, [])) ∧
    (∀ (d : String) (imgs : List ImagePart) gen (n : Nat),
      jsStartsWith d "USE_IMAGE:" = true → matchImageTag d = some n →
      (n = 0 ∨ imgs.length < n) → resolveImage (some d) imgs gen = (none, [])) ∧
    processSingleQuestion notesA qA
      ⟨.ok "YES", fun _ => .ok ("Plain answer with no directive.", []), fun _ => .ok none⟩ =
      { question := "Q1", marks := none, answer := "Plain answer with no directive."
      , imageUrl := none, sources := [] } := by
  refine ⟨by decide, by decide, fun gen => rfl, fun imgs => rfl, fun imgs gen => rfl,
    ?_, by decide⟩
  intro d imgs gen n hstart hmatch hrange
  unfold resolveImage
  dsimp only
  rw [if_pos hstart]
  unfold resolveUse
  rw [hmatch]
  dsimp only
  rw [if_neg ?side]
  case side =>
    rintro ⟨h1, h2⟩
    rcases hrange with rfl | h
    · omega
    · omega

/-- Witness for C5: the out-of-range index 9 against 3 images. -/
theorem claim5_witness :
    resolveImage (some "USE_IMAGE: [Image 9]") imgs3
      (fun _ => .ok (some "X")) = (none, []) :=
  claim5_image_directive.2.2.2.2.2.1 "USE_IMAGE: [Image 9]" imgs3
    (fun _ => .ok (some "X")) 9 rfl rfl (Or.inr (by decide))

/-- C7: within one parsed PDF, any collected image's 100-character
payload prefix identifies exactly one entry of the final image list —
images sharing a prefix collapse to a single entry. -/
theorem claim7_image_dedup (pages : List PdfPage) (img : ImagePart)
    (h : img ∈ pdfCollectedImages pages) :
    ((parsePdf pages).images).countP
      (fun x => jsTake x.data 100 == jsTake img.data 100) = 1 :=
  dedupeImages_count (pdfCollectedImages pages) img h

/-- Witness for C7: the same payload collected twice survives once. -/
theorem claim7_witness :
    ((parsePdf [⟨"", ["DUP", "DUP"], none⟩]).images).countP
      (fun x => jsTake x.data 100 == jsTake "DUP" 100) = 1 :=
  claim7_image_dedup [⟨"", ["DUP", "DUP"], none⟩] ⟨"DUP", "image/jpeg"⟩ (by decide)

/-- C8 counterexample: a page with a short text layer need not contribute
an additional rendered image — a failed render (caught by the source's
try/catch) contributes nothing, and even a successful render whose
100-character payload prefix matches an embedded image collapses with it,
leaving the image list no longer than without the render. -/
theorem claim8_counterexample :
    (jsTrim "").length < 100 ∧
    (parsePdf [⟨"", [], none⟩]).images = [] ∧
    (parsePdf [⟨"", ["IMG"], some "IMG"⟩]).images =
      (parsePdf [⟨"", ["IMG"], none⟩]).images ∧
    ((parsePdf [⟨"", ["IMG"], some "IMG"⟩]).images).length = 1 := by
  refine ⟨by decide, by decide, by decide, by decide⟩

/-- C8 (amended): a page whose text layer is under the 100-character
threshold is rendered, and whenever the render yields data the final
image list contains an entry with the render's 100-character payload
prefix — though it may be merged with another image sharing that prefix,
and a failed render contributes nothing. -/
theorem claim8_scan_fallback_amended (pages : List PdfPage) (p : PdfPage) (d : String)
    (hp : p ∈ pages) (hshort : (jsTrim p.pageText).length < 100)
    (hr : p.renderOutcome = some d) (hd : ¬(d = "")) :
    ∃ img, img ∈ (parsePdf pages).images ∧ jsTake img.data 100 = jsTake d 100 := by
  have hmem : (⟨d, "image/jpeg"⟩ : ImagePart) ∈ collectPageImages p := by
    unfold collectPageImages
    apply List.mem_append.mpr
    right
    rw [if_pos hshort, hr]
    dsimp only
    rw [if_neg (by simpa using hd)]
    exact List.mem_singleton.mpr rfl
  have hmemAll : (⟨d, "image/jpeg"⟩ : ImagePart) ∈ pdfCollectedImages pages := by
    unfold pdfCollectedImages
    rw [List.mem_flatten]
    exact ⟨collectPageImages p, List.mem_map.mpr ⟨p, hp, rfl⟩, hmem⟩
  exact dedupeImages_key_mem (pdfCollectedImages pages) ⟨d, "image/jpeg"⟩ hmemAll

/-- Witness for C8 (amended): one short page whose render succeeds. -/
theorem claim8_witness :
    ∃ img, img ∈ (parsePdf [⟨"", [], some "RENDER"⟩]).images ∧
      jsTake img.data 100 = jsTake "RENDER" 100 :=
  claim8_scan_fallback_amended [⟨"", [], some "RENDER"⟩] ⟨"", [], some "RENDER"⟩
    "RENDER" (by decide) (by decide) rfl (by decide)

end IntelliNote
